import Mathlib

/-!
Verification of the facility-structure resolver of the
`autodesk-tandem/streams-examples` repository.

The embedding follows `src/facility/list-facility-structure.js` (the
hierarchy resolver, the traversal generators and `isDefaultModel`) and
`src/common/tandemClient.js` (`getTaggedAssets`'s tagged-element filter).
The key codec (`Encoding` from `common/utils.js`) is not part of the
sources and is modelled from the spec where noted.

Conventions of the embedding:
* JavaScript objects used as string-keyed maps become insertion-ordered
  association lists (`getKV`/`setKV` below); assigning to an existing key
  keeps its position, assigning to a fresh key appends — exactly the JS
  property-order semantics the generators iterate in.
* A possibly-`undefined` JS string value is `Option String` (`none` is
  `undefined`); out-of-range array indexing (`elementKeys[i]`) therefore
  yields `none`.
* A reference-blob column (`QC.Rooms`, `QC.XRooms`, `QC.Level`) is
  represented already decoded, with `none` standing for an absent (or
  empty, hence JS-falsy) blob, so the JS truthiness test on the raw blob
  is `Option.isSome` here.
-/

set_option autoImplicit false

/-- JS `String.prototype.replace` with a plain-string pattern replaces only
the first occurrence of the pattern; this models it on character lists.
An empty pattern matches at position 0, as in JS. -/
def listStartsWith : List Char → List Char → Bool
  | _, [] => true
  | [], _ :: _ => false
  | a :: s, b :: p => a = b && listStartsWith s p

/-- First-occurrence-only replacement on character lists. -/
def replaceFirstAux (pat rep : List Char) : List Char → List Char
  | [] => if listStartsWith [] pat then rep else []
  | c :: rest =>
      if listStartsWith (c :: rest) pat then rep ++ (c :: rest).drop pat.length
      else c :: replaceFirstAux pat rep rest

/-- JS `s.replace(pat, rep)` for plain-string `pat`: first occurrence only. -/
def jsReplaceFirst (s pat rep : String) : String :=
  ⟨replaceFirstAux pat.data rep.data s.data⟩

/-- JS `String.prototype.startsWith`, stated on the character lists so that
it computes by structural recursion. -/
def strStartsWith (s pre : String) : Bool :=
  listStartsWith s.data pre.data

/-- `isDefaultModel` from `list-facility-structure.js` (lines 141-145): the
default model id is the facility URN with its first `urn:adsk.dtt:` turned
into `urn:adsk.dtm:`. -/
def isDefaultModel (facilityId modelId : String) : Bool :=
  jsReplaceFirst facilityId "urn:adsk.dtt:" "urn:adsk.dtm:" == modelId

/-- Modelled from the spec: `Encoding.toFullKey` lives in `common/utils.js`,
which is not among the sources. §4.1 specifies only that it converts a
possibly-still-encoded local key to the canonical full form and is
idempotent on already-converted keys; we model the full form as an
`f:`-tagged string. -/
def Encoding.toFullKey (k : String) : String :=
  if strStartsWith k "f:" then k else "f:" ++ k

/-- Modelled from the spec: `Encoding.fromShortKeyArray` from the missing
`common/utils.js` decodes a compact same-model key-array blob (§4.1
`decodeLocalArray`). The blob is represented already decoded, so the
function is the identity on the decoded list. -/
def Encoding.fromShortKeyArray (raw : List String) : List String := raw

/-- Modelled from the spec: `Encoding.fromXrefKeyArray` from the missing
`common/utils.js` decodes a cross-model reference blob into parallel arrays
of raw model ids and element keys (§4.1 `decodeXrefArray`); per §4.2, an
absent (JS-falsy) blob yields two empty arrays. The spec allows the two
arrays to have unequal length (a data-integrity error, §7). -/
def Encoding.fromXrefKeyArray : Option (List String × List String) →
    List String × List String
  | none => ([], [])
  | some p => p

/-- One scanned element: a row of the model scan, restricted to the columns
the resolver reads.  `propKeys` lists the column-qualified property names
present on the element (used by `getTaggedAssets`'s `z:`-family filter);
`rooms`/`xrooms` are the decoded `QC.Rooms`/`QC.XRooms` reference blobs;
`level` is the same-model `QC.Level` reference; `xlevel` is a decoded
cross-model level reference column (raw model id, element key), which an
element may carry but the resolver never reads. -/
structure Element where
  key : String
  propKeys : List String
  rooms : Option (List String)
  xrooms : Option (List String × List String)
  level : Option String
  xlevel : Option (String × String)
deriving DecidableEq

/-- Requested column families of a scan call (`ColumnFamilies` of the
missing `common/utils.js`, modelled from the spec §6; the `DtProperties`
family prefix is documented as `z` in `tandemClient.js`). -/
inductive ColumnFamily where
  | standard
  | dtProperties
  | refs
  | xrefs
deriving DecidableEq

/-- One batched `getElements` call issued during resolution: target model,
requested keys (possibly containing JS `undefined`), requested families. -/
structure FetchReq where
  modelId : String
  keys : List (Option String)
  families : List ColumnFamily
deriving DecidableEq

/-- The external data service (§6): the facility's model links, the raw
per-model scan behind `getTaggedAssets`, and the keyed element fetch behind
`getElements`.  `elements` may return fewer elements than requested
(dangling references, §4.3). -/
structure Backend where
  links : List String
  scan : String → List Element
  elements : String → List (Option String) → List Element

/-- `TandemClient.getTaggedAssets` (`tandemClient.js` lines 229-255): scan
the model and keep the elements having at least one property in the custom
(`z:`) column family. -/
def getTaggedAssets (backend : Backend) (urn : String) : List Element :=
  (backend.scan urn).filter (fun item => item.propKeys.any (fun k => strStartsWith k "z:"))

/-- Lookup in a JS-object-as-map (association list), first matching key. -/
def getKV {α β : Type} [DecidableEq α] : List (α × β) → α → Option β
  | [], _ => none
  | (k', v) :: rest, k => if k' = k then some v else getKV rest k

/-- JS property assignment `m[k] = v`: replace in place if the key exists
(keeping its position in the iteration order), append otherwise. -/
def setKV {α β : Type} [DecidableEq α] : List (α × β) → α → β → List (α × β)
  | [], k, v => [(k, v)]
  | (k', v') :: rest, k, v =>
      if k' = k then (k, v) :: rest else (k', v') :: setKV rest k v

/-- Adding to a JS `Set`: kept once, in first-insertion order. -/
def jsSetAdd {α : Type} [DecidableEq α] (l : List α) (a : α) : List α :=
  if a ∈ l then l else l ++ [a]

/-- `new Set(list)` iterated back to a list: first occurrences, in order. -/
def jsSetDedup {α : Type} [DecidableEq α] (l : List α) : List α :=
  l.foldl jsSetAdd []

/-- The cross-model branch of STEP 4 (`list-facility-structure.js` lines
69-74): iterate `i` over the `modelIds` array, pair
`urn:adsk.dtm:${modelIds[i]}` with `elementKeys[i]`; an index beyond
`elementKeys` reads JS `undefined` (`none`). -/
def xrefPairs : List String → List String → List (String × Option String)
  | [], _ => []
  | mId :: ms, [] => ("urn:adsk.dtm:" ++ mId, none) :: xrefPairs ms []
  | mId :: ms, k :: ks => ("urn:adsk.dtm:" ++ mId, some k) :: xrefPairs ms ks

/-- STEP 4 of `main` (lines 51-75): the normalized room references
`assetRooms` of one asset, as `(modelId, roomId)` pairs.  A truthy
`QC.Rooms` blob is decoded with `fromShortKeyArray` and each key paired
with the owning model after `toFullKey`; otherwise the `QC.XRooms` blob is
decoded with `fromXrefKeyArray` and zipped by index over the model-id
array. -/
def assetRoomsOf (modelId : String) (asset : Element) : List (String × Option String) :=
  match asset.rooms with
  | some roomRef =>
      (Encoding.fromShortKeyArray roomRef).map
        (fun roomKey => (modelId, some (Encoding.toFullKey roomKey)))
  | none =>
      let roomKeys := Encoding.fromXrefKeyArray asset.xrooms
      xrefPairs roomKeys.1 roomKeys.2

/-- STEP 5 of `main` (lines 77-86): append the asset key to the bucket of
each referenced room, keyed by `roomId` alone, creating the bucket on first
use. -/
def addRoomBuckets (m : List (Option String × List String)) (assetKey : String)
    (assetRooms : List (String × Option String)) : List (Option String × List String) :=
  assetRooms.foldl
    (fun m r =>
      let assetIds := (getKV m r.2).getD []
      setKV m r.2 (assetIds ++ [assetKey]))
    m

/-- Accumulator of Pass 1 (STEP 3-5): the `assets` and `roomAssetsMap`
members of `data`, the `modelRooms` work list, and the trace of models
actually scanned. -/
structure P1State where
  assets : List (String × Element)
  roomAssetsMap : List (Option String × List String)
  modelRooms : List (String × Option String)
  scanned : List String
deriving DecidableEq

/-- The body of the inner asset loop (lines 45-88). -/
def processAsset (modelId : String) (st : P1State) (asset : Element) : P1State :=
  let assetKey := Encoding.toFullKey asset.key
  let assetRooms := assetRoomsOf modelId asset
  { assets := setKV st.assets assetKey asset
    roomAssetsMap := addRoomBuckets st.roomAssetsMap assetKey assetRooms
    modelRooms := st.modelRooms ++ assetRooms
    scanned := st.scanned }

/-- The body of the link loop (lines 36-89): skip the default model,
otherwise scan the model's tagged assets and process each. -/
def processLink (urn : String) (backend : Backend) (st : P1State) (modelId : String) :
    P1State :=
  if isDefaultModel urn modelId then st
  else
    (getTaggedAssets backend modelId).foldl (processAsset modelId)
      { st with scanned := st.scanned ++ [modelId] }

/-- Pass 1 (STEP 3-5) over all facility links. -/
def pass1 (urn : String) (backend : Backend) : P1State :=
  backend.links.foldl (processLink urn backend) ⟨[], [], [], []⟩

/-- Accumulator of Pass 2 (STEP 6): the `rooms`, `roomLevelMap` and
`levels` members of `data`, plus the traces of the room and level
`getElements` calls. -/
structure P2State where
  rooms : List (String × Element)
  roomLevelMap : List (String × String)
  levels : List (String × Element)
  roomFetches : List FetchReq
  levelFetches : List FetchReq
deriving DecidableEq

/-- The body of the room loop (lines 99-109): store the room under its full
key and, when `QC.Level` is truthy, record the level mapping and add the
raw level reference to the per-model `levelIds` set. -/
def roomStep (acc : List (String × Element) × List (String × String) × List String)
    (room : Element) : List (String × Element) × List (String × String) × List String :=
  let roomKey := Encoding.toFullKey room.key
  let rooms := setKV acc.1 roomKey room
  match room.level with
  | some levelRef =>
      (rooms, setKV acc.2.1 roomKey (Encoding.toFullKey levelRef), jsSetAdd acc.2.2 levelRef)
  | none => (rooms, acc.2.1, acc.2.2)

/-- The body of the model loop of Pass 2 (lines 93-120): one de-duplicated
room fetch for the model, then room processing, then at most one level
fetch (issued only when some room contributed a level reference, and issued
against this same model). -/
def processModel (backend : Backend) (modelRooms : List (String × Option String))
    (st : P2State) (modelId : String) : P2State :=
  let roomIds := jsSetDedup ((modelRooms.filter (fun i => i.1 == modelId)).map (fun i => i.2))
  let fetchedRooms := backend.elements modelId roomIds
  let step := fetchedRooms.foldl roomStep (st.rooms, st.roomLevelMap, [])
  let roomReq : FetchReq := ⟨modelId, roomIds, [.standard, .refs]⟩
  if step.2.2.isEmpty then
    { rooms := step.1
      roomLevelMap := step.2.1
      levels := st.levels
      roomFetches := st.roomFetches ++ [roomReq]
      levelFetches := st.levelFetches }
  else
    let levelKeys := step.2.2.map (fun k => some k)
    let fetchedLevels := backend.elements modelId levelKeys
    { rooms := step.1
      roomLevelMap := step.2.1
      levels := fetchedLevels.foldl
        (fun lv level => setKV lv (Encoding.toFullKey level.key) level) st.levels
      roomFetches := st.roomFetches ++ [roomReq]
      levelFetches := st.levelFetches ++ [⟨modelId, levelKeys, [.standard]⟩] }

/-- Pass 2 (STEP 6): iterate the set of distinct model ids of the pending
room work list, in first-occurrence order. -/
def pass2 (backend : Backend) (modelRooms : List (String × Option String)) : P2State :=
  (jsSetDedup (modelRooms.map (fun i => i.1))).foldl (processModel backend modelRooms)
    ⟨[], [], [], [], []⟩

/-- The `data` object of `main` (lines 26-32) after both passes. -/
structure ResolvedData where
  levels : List (String × Element)
  rooms : List (String × Element)
  assets : List (String × Element)
  roomAssetsMap : List (Option String × List String)
  roomLevelMap : List (String × String)
deriving DecidableEq

/-- Result of a full run of `main`'s resolution (STEP 3-6), together with
the work list and the fetch traces the theorems inspect. -/
structure ResolveResult where
  data : ResolvedData
  modelRooms : List (String × Option String)
  scanned : List String
  roomFetches : List FetchReq
  levelFetches : List FetchReq
deriving DecidableEq

/-- The resolution portion of `main`: Pass 1 over the facility links, then
Pass 2 over the pending rooms. -/
def resolve (urn : String) (backend : Backend) : ResolveResult :=
  let p1 := pass1 urn backend
  let p2 := pass2 backend p1.modelRooms
  { data := ⟨p2.levels, p2.rooms, p1.assets, p1.roomAssetsMap, p2.roomLevelMap⟩
    modelRooms := p1.modelRooms
    scanned := p1.scanned
    roomFetches := p2.roomFetches
    levelFetches := p2.levelFetches }

/-- `getLevels` (lines 147-153): all `(levelKey, level)` pairs in insertion
order. -/
def getLevels (data : ResolvedData) : List (String × Element) :=
  data.levels

/-- `getRoomsByLevel` (lines 155-164): the rooms whose `roomLevelMap` entry
is strictly equal to the given level key.  A room with no entry reads JS
`undefined`, which is `!==` any string key, so it is skipped. -/
def getRoomsByLevel (data : ResolvedData) (levelKey : String) : List (String × Element) :=
  data.rooms.filter (fun p => getKV data.roomLevelMap p.1 == some levelKey)

/-- `getAssetsByRoom` (lines 166-174): iterating `data.roomAssetsMap[roomKey]`
throws a `TypeError` when the bucket was never recorded (`for ... of
undefined`); otherwise each asset key is paired with its (possibly
`undefined`) element from `data.assets`. -/
def getAssetsByRoom (data : ResolvedData) (roomKey : Option String) :
    Except String (List (String × Option Element)) :=
  match getKV data.roomAssetsMap roomKey with
  | none => .error "TypeError: assetKeys is not iterable"
  | some assetKeys => .ok (assetKeys.map (fun k => (k, getKV data.assets k)))

/-! ### Derived descriptions of the passes, used to state the claims -/

/-- The `(owning model, scanned asset)` pairs Pass 1 visits, in order:
every tagged asset of every non-default link. -/
def pass1AssetsOf (urn : String) (backend : Backend) (links : List String) :
    List (String × Element) :=
  (links.filter (fun m => !isDefaultModel urn m)).flatMap
    (fun m => (getTaggedAssets backend m).map (fun a => (m, a)))

/-- The Pass-1 visit order over the facility's own links. -/
def pass1Assets (urn : String) (backend : Backend) : List (String × Element) :=
  pass1AssetsOf urn backend backend.links

/-- The appends one asset contributes to the bucket of room key `r`: its
asset key once per reference to `r`. -/
def occOf (assetKey : String) (assetRooms : List (String × Option String))
    (r : Option String) : List String :=
  (assetRooms.filter (fun p => p.2 == r)).map (fun _ => assetKey)

/-- All appends to the bucket of room key `r` over a list of visited
assets, in Pass-1 discovery order. -/
def occAllOf (visited : List (String × Element)) (r : Option String) : List String :=
  visited.flatMap
    (fun p => occOf (Encoding.toFullKey p.2.key) (assetRoomsOf p.1 p.2) r)

/-- The full discovery-order content of the bucket of room key `r`. -/
def occAll (urn : String) (backend : Backend) (r : Option String) : List String :=
  occAllOf (pass1Assets urn backend) r

/-- How a run of bucket appends changes a bucket's optional content: an
absent bucket stays absent when nothing is appended, and is created
otherwise. -/
def bucketCombine : Option (List String) → List String → Option (List String)
  | some b, occ => some (b ++ occ)
  | none, [] => none
  | none, occ => some occ

/-- The de-duplicated room keys Pass 2 requests from one model. -/
def roomIdsOf (modelRooms : List (String × Option String)) (modelId : String) :
    List (Option String) :=
  jsSetDedup ((modelRooms.filter (fun i => i.1 == modelId)).map (fun i => i.2))

/-- The de-duplicated same-model level references collected from one
model's fetched rooms. -/
def levelIdsOf (backend : Backend) (modelRooms : List (String × Option String))
    (modelId : String) : List String :=
  jsSetDedup ((backend.elements modelId (roomIdsOf modelRooms modelId)).filterMap
    (fun e => e.level))


/-! ### Association-list lemmas -/

/-- Keys are pairwise distinct in an association list. -/
abbrev NodupKeys {α β : Type} (m : List (α × β)) : Prop :=
  List.Pairwise (fun a b => a.1 ≠ b.1) m

theorem getKV_setKV {α β : Type} [DecidableEq α] (m : List (α × β)) (k k' : α) (v : β) :
    getKV (setKV m k v) k' = if k = k' then some v else getKV m k' := by
  induction m with
  | nil => simp [setKV, getKV]
  | cons p rest ih =>
      obtain ⟨pk, pv⟩ := p
      by_cases hpk : pk = k
      · subst hpk
        by_cases h : pk = k' <;> simp [setKV, getKV, h]
      · by_cases h1 : pk = k'
        · subst h1
          have hk : k ≠ pk := fun hh => hpk hh.symm
          simp [setKV, getKV, hpk, hk]
        · simp [setKV, getKV, hpk, h1, ih]

theorem getKV_some_mem {α β : Type} [DecidableEq α] {m : List (α × β)} {k : α} {v : β}
    (h : getKV m k = some v) : (k, v) ∈ m := by
  induction m with
  | nil => simp [getKV] at h
  | cons p rest ih =>
      obtain ⟨pk, pv⟩ := p
      by_cases hpk : pk = k
      · subst hpk
        simp [getKV] at h
        subst h
        exact List.mem_cons_self _ _
      · simp only [getKV, if_neg hpk] at h
        exact List.mem_cons_of_mem _ (ih h)

theorem getKV_ne_none_of_mem {α β : Type} [DecidableEq α] {m : List (α × β)} {k : α}
    {v : β} (h : (k, v) ∈ m) : getKV m k ≠ none := by
  induction m with
  | nil => simp at h
  | cons p rest ih =>
      obtain ⟨pk, pv⟩ := p
      by_cases hpk : pk = k
      · subst hpk; simp [getKV]
      · rcases List.mem_cons.mp h with h1 | h1
        · cases h1; exact absurd rfl hpk
        · simpa [getKV, hpk] using ih h1

theorem mem_setKV {α β : Type} [DecidableEq α] {m : List (α × β)} {k : α} {v : β}
    {p : α × β} (h : p ∈ setKV m k v) : p ∈ m ∨ p = (k, v) := by
  induction m with
  | nil => simp [setKV] at h; simp [h]
  | cons q rest ih =>
      obtain ⟨qk, qv⟩ := q
      by_cases hqk : qk = k
      · subst hqk
        rcases List.mem_cons.mp (by simpa [setKV] using h) with h1 | h1
        · right; exact h1
        · left; exact List.mem_cons_of_mem _ h1
      · rcases List.mem_cons.mp (by simpa [setKV, hqk] using h) with h1 | h1
        · left; simp [h1]
        · rcases ih h1 with h2 | h2
          · left; exact List.mem_cons_of_mem _ h2
          · right; exact h2

theorem nodupKeys_setKV {α β : Type} [DecidableEq α] {m : List (α × β)} {k : α} {v : β}
    (h : NodupKeys m) : NodupKeys (setKV m k v) := by
  induction m with
  | nil => simp [setKV, NodupKeys]
  | cons q rest ih =>
      obtain ⟨qk, qv⟩ := q
      rcases List.pairwise_cons.mp h with ⟨hhead, htail⟩
      by_cases hqk : qk = k
      · subst hqk
        simp only [setKV, if_pos rfl]
        exact List.pairwise_cons.mpr ⟨fun b hb => hhead b hb, htail⟩
      · simp only [setKV, if_neg hqk]
        refine List.pairwise_cons.mpr ⟨fun b hb => ?_, ih htail⟩
        rcases mem_setKV hb with h1 | h1
        · exact hhead b h1
        · subst h1; exact hqk

theorem getKV_eq_some_of_mem {α β : Type} [DecidableEq α] {m : List (α × β)} {k : α}
    {v : β} (hn : NodupKeys m) (h : (k, v) ∈ m) : getKV m k = some v := by
  induction m with
  | nil => simp at h
  | cons q rest ih =>
      obtain ⟨qk, qv⟩ := q
      rcases List.pairwise_cons.mp hn with ⟨hhead, htail⟩
      rcases List.mem_cons.mp h with h1 | h1
      · cases h1; simp [getKV]
      · have hqk : qk ≠ k := hhead (k, v) h1
        simp only [getKV, if_neg hqk]
        exact ih htail h1

/-! ### JS-set lemmas -/

theorem mem_foldl_jsSetAdd {α : Type} [DecidableEq α] (l : List α) (acc : List α)
    (x : α) : x ∈ l.foldl jsSetAdd acc ↔ x ∈ acc ∨ x ∈ l := by
  induction l generalizing acc with
  | nil => simp
  | cons a rest ih =>
      simp only [List.foldl_cons, ih, jsSetAdd]
      by_cases ha : a ∈ acc
      · simp only [if_pos ha, List.mem_cons]
        constructor
        · rintro (h | h)
          · exact Or.inl h
          · exact Or.inr (Or.inr h)
        · rintro (h | h | h)
          · exact Or.inl h
          · exact Or.inl (h ▸ ha)
          · exact Or.inr h
      · simp only [if_neg ha, List.mem_append, List.mem_singleton, List.mem_cons]
        tauto

theorem nodup_foldl_jsSetAdd {α : Type} [DecidableEq α] (l : List α) (acc : List α)
    (h : acc.Nodup) : (l.foldl jsSetAdd acc).Nodup := by
  induction l generalizing acc with
  | nil => simpa
  | cons a rest ih =>
      simp only [List.foldl_cons, jsSetAdd]
      by_cases ha : a ∈ acc
      · simpa [ha] using ih acc h
      · refine ih _ ?_
        simp only [if_neg ha]
        simpa [List.nodup_append] using ⟨h, ha⟩

theorem mem_jsSetDedup {α : Type} [DecidableEq α] (l : List α) (x : α) :
    x ∈ jsSetDedup l ↔ x ∈ l := by
  simp [jsSetDedup, mem_foldl_jsSetAdd]

theorem nodup_jsSetDedup {α : Type} [DecidableEq α] (l : List α) :
    (jsSetDedup l).Nodup :=
  nodup_foldl_jsSetAdd l [] List.nodup_nil

theorem count_jsSetDedup {α : Type} [DecidableEq α] (l : List α) (x : α) :
    List.count x (jsSetDedup l) = if x ∈ l then 1 else 0 := by
  by_cases h : x ∈ l
  · simp only [if_pos h]
    exact List.count_eq_one_of_mem (nodup_jsSetDedup l) ((mem_jsSetDedup l x).mpr h)
  · simp only [if_neg h]
    exact List.count_eq_zero.mpr (fun hx => h ((mem_jsSetDedup l x).mp hx))

/-! ### Bucket lemmas -/

theorem bucketCombine_nil (o : Option (List String)) : bucketCombine o [] = o := by
  cases o <;> simp [bucketCombine]

theorem bucketCombine_append (o : Option (List String)) (l1 l2 : List String) :
    bucketCombine o (l1 ++ l2) = bucketCombine (bucketCombine o l1) l2 := by
  match o, l1, l2 with
  | some b, l1, l2 => simp [bucketCombine]
  | none, [], l2 => simp [bucketCombine]
  | none, a :: t, [] => simp [bucketCombine]
  | none, a :: t, b :: u => simp [bucketCombine]

theorem bucketCombine_ne_none {o : Option (List String)} {l : List String}
    (h : l ≠ []) : bucketCombine o l ≠ none := by
  match o, l with
  | some b, l => simp [bucketCombine]
  | none, [] => exact absurd rfl h
  | none, a :: t => simp [bucketCombine]

theorem bucketCombine_none_eq_some {l b : List String}
    (h : bucketCombine none l = some b) : b = l ∧ l ≠ [] := by
  match l with
  | [] => simp [bucketCombine] at h
  | a :: t =>
      simp [bucketCombine] at h
      exact ⟨h.symm, by simp⟩

theorem occOf_nil (assetKey : String) (r : Option String) :
    occOf assetKey [] r = [] := rfl

theorem occOf_cons (assetKey : String) (p : String × Option String)
    (rest : List (String × Option String)) (r : Option String) :
    occOf assetKey (p :: rest) r =
      (if p.2 = r then [assetKey] else []) ++ occOf assetKey rest r := by
  by_cases h : p.2 = r <;> simp [occOf, List.filter_cons, h]

theorem mem_occOf {assetKey x : String} {assetRooms : List (String × Option String)}
    {r : Option String} :
    x ∈ occOf assetKey assetRooms r ↔
      x = assetKey ∧ ∃ p ∈ assetRooms, p.2 = r := by
  simp only [occOf, List.mem_map, List.mem_filter]
  constructor
  · rintro ⟨p, ⟨hp, hpr⟩, hx⟩
    exact ⟨hx.symm, p, hp, by simpa using hpr⟩
  · rintro ⟨hx, p, hp, hpr⟩
    exact ⟨p, ⟨hp, by simpa using hpr⟩, hx.symm⟩

theorem getKV_addRoomBuckets (mp : List (Option String × List String))
    (assetKey : String) (assetRooms : List (String × Option String))
    (r : Option String) :
    getKV (addRoomBuckets mp assetKey assetRooms) r =
      bucketCombine (getKV mp r) (occOf assetKey assetRooms r) := by
  induction assetRooms generalizing mp with
  | nil => simp [addRoomBuckets, occOf, bucketCombine_nil]
  | cons p rest ih =>
      have hstep : addRoomBuckets mp assetKey (p :: rest) =
          addRoomBuckets (setKV mp p.2 (((getKV mp p.2).getD []) ++ [assetKey]))
            assetKey rest := rfl
      rw [hstep, ih, occOf_cons]
      by_cases hpr : p.2 = r
      · subst hpr
        rw [getKV_setKV]
        cases hg : getKV mp p.2 with
        | none => simp [bucketCombine]
        | some b => simp [bucketCombine, List.append_assoc]
      · rw [getKV_setKV, if_neg hpr]
        simp [hpr]

theorem nodupKeys_addRoomBuckets (mp : List (Option String × List String))
    (assetKey : String) (assetRooms : List (String × Option String))
    (h : NodupKeys mp) : NodupKeys (addRoomBuckets mp assetKey assetRooms) := by
  induction assetRooms generalizing mp with
  | nil => exact h
  | cons p rest ih => exact ih _ (nodupKeys_setKV h)

/-! ### Pass-1 fold invariants -/

theorem scanned_foldl_processAsset (assets : List Element) (m : String) (st : P1State) :
    (assets.foldl (processAsset m) st).scanned = st.scanned := by
  induction assets generalizing st with
  | nil => rfl
  | cons a rest ih => simpa [processAsset] using ih (processAsset m st a)

theorem modelRooms_foldl_processAsset (assets : List Element) (m : String)
    (st : P1State) :
    (assets.foldl (processAsset m) st).modelRooms =
      st.modelRooms ++ assets.flatMap (fun a => assetRoomsOf m a) := by
  induction assets generalizing st with
  | nil => simp
  | cons a rest ih =>
      rw [List.foldl_cons, ih]
      simp [processAsset, List.append_assoc]

theorem roomAssets_foldl_processAsset (assets : List Element) (m : String)
    (st : P1State) (r : Option String) :
    getKV (assets.foldl (processAsset m) st).roomAssetsMap r =
      bucketCombine (getKV st.roomAssetsMap r)
        (assets.flatMap (fun a => occOf (Encoding.toFullKey a.key) (assetRoomsOf m a) r)) := by
  induction assets generalizing st with
  | nil => simp [bucketCombine_nil]
  | cons a rest ih =>
      rw [List.foldl_cons, ih (processAsset m st a), List.flatMap_cons,
        bucketCombine_append]
      have : getKV (processAsset m st a).roomAssetsMap r =
          bucketCombine (getKV st.roomAssetsMap r)
            (occOf (Encoding.toFullKey a.key) (assetRoomsOf m a) r) :=
        getKV_addRoomBuckets _ _ _ _
      rw [this]

theorem assets_foldl_processAsset (assets : List Element) (m : String) (st : P1State)
    {p : String × Element} (hp : p ∈ (assets.foldl (processAsset m) st).assets) :
    p ∈ st.assets ∨ ∃ a ∈ assets, p = (Encoding.toFullKey a.key, a) := by
  induction assets generalizing st with
  | nil => exact Or.inl hp
  | cons a rest ih =>
      rcases ih (processAsset m st a) (by simpa using hp) with h | h
      · rcases mem_setKV h with h1 | h1
        · exact Or.inl h1
        · exact Or.inr ⟨a, List.mem_cons_self _ _, h1⟩
      · rcases h with ⟨a', ha', hpa⟩
        exact Or.inr ⟨a', List.mem_cons_of_mem _ ha', hpa⟩

theorem nodupKeys_roomAssets_foldl_processAsset (assets : List Element) (m : String)
    (st : P1State) (h : NodupKeys st.roomAssetsMap) :
    NodupKeys (assets.foldl (processAsset m) st).roomAssetsMap := by
  induction assets generalizing st with
  | nil => exact h
  | cons a rest ih =>
      exact ih (processAsset m st a) (nodupKeys_addRoomBuckets _ _ _ h)

theorem scanned_foldl_processLink (urn : String) (backend : Backend)
    (links : List String) (st : P1State) :
    (links.foldl (processLink urn backend) st).scanned =
      st.scanned ++ links.filter (fun m => !isDefaultModel urn m) := by
  induction links generalizing st with
  | nil => simp
  | cons m rest ih =>
      rw [List.foldl_cons, ih]
      by_cases hd : isDefaultModel urn m
      · simp [processLink, hd, List.filter_cons]
      · simp [processLink, hd, List.filter_cons, scanned_foldl_processAsset,
          List.append_assoc]

theorem modelRooms_foldl_processLink (urn : String) (backend : Backend)
    (links : List String) (st : P1State) :
    (links.foldl (processLink urn backend) st).modelRooms =
      st.modelRooms ++
        (pass1AssetsOf urn backend links).flatMap (fun p => assetRoomsOf p.1 p.2) := by
  induction links generalizing st with
  | nil => simp [pass1AssetsOf]
  | cons m rest ih =>
      rw [List.foldl_cons, ih]
      by_cases hd : isDefaultModel urn m
      · simp [processLink, hd, pass1AssetsOf, List.filter_cons]
      · have hu : processLink urn backend st m =
            (getTaggedAssets backend m).foldl (processAsset m)
              { st with scanned := st.scanned ++ [m] } := by
          simp [processLink, hd]
        rw [hu, modelRooms_foldl_processAsset]
        simp [pass1AssetsOf, List.filter_cons, hd, List.flatMap_map, List.append_assoc]

theorem roomAssets_foldl_processLink (urn : String) (backend : Backend)
    (links : List String) (st : P1State) (r : Option String) :
    getKV (links.foldl (processLink urn backend) st).roomAssetsMap r =
      bucketCombine (getKV st.roomAssetsMap r)
        (occAllOf (pass1AssetsOf urn backend links) r) := by
  induction links generalizing st with
  | nil => simp [pass1AssetsOf, occAllOf, bucketCombine_nil]
  | cons m rest ih =>
      rw [List.foldl_cons, ih]
      by_cases hd : isDefaultModel urn m
      · simp [processLink, hd, pass1AssetsOf, occAllOf, List.filter_cons]
      · have hu : processLink urn backend st m =
            (getTaggedAssets backend m).foldl (processAsset m)
              { st with scanned := st.scanned ++ [m] } := by
          simp [processLink, hd]
        rw [hu, roomAssets_foldl_processAsset, ← bucketCombine_append]
        congr 1
        simp [pass1AssetsOf, occAllOf, List.filter_cons, hd, List.flatMap_map]

theorem assets_foldl_processLink (urn : String) (backend : Backend)
    (links : List String) (st : P1State) {p : String × Element}
    (hp : p ∈ (links.foldl (processLink urn backend) st).assets) :
    p ∈ st.assets ∨
      ∃ q ∈ pass1AssetsOf urn backend links, p = (Encoding.toFullKey q.2.key, q.2) := by
  induction links generalizing st with
  | nil => exact Or.inl hp
  | cons m rest ih =>
      rw [List.foldl_cons] at hp
      rcases ih (processLink urn backend st m) hp with h | h
      · by_cases hd : isDefaultModel urn m
        · simp only [processLink, hd, if_true] at h
          exact Or.inl h
        · have hu : processLink urn backend st m =
              (getTaggedAssets backend m).foldl (processAsset m)
                { st with scanned := st.scanned ++ [m] } := by
            simp [processLink, hd]
          rw [hu] at h
          rcases assets_foldl_processAsset _ _ _ h with h1 | h1
          · exact Or.inl h1
          · rcases h1 with ⟨a, ha, hpa⟩
            refine Or.inr ⟨(m, a), ?_, hpa⟩
            have hcons : pass1AssetsOf urn backend (m :: rest) =
                (getTaggedAssets backend m).map (fun a => (m, a)) ++
                  pass1AssetsOf urn backend rest := by
              simp [pass1AssetsOf, List.filter_cons, hd]
            rw [hcons]
            exact List.mem_append_left _ (List.mem_map_of_mem _ ha)
      · rcases h with ⟨q, hq, hpq⟩
        refine Or.inr ⟨q, ?_, hpq⟩
        by_cases hd : isDefaultModel urn m
        · have hcons : pass1AssetsOf urn backend (m :: rest) =
              pass1AssetsOf urn backend rest := by
            simp [pass1AssetsOf, List.filter_cons, hd]
          rw [hcons]; exact hq
        · have hcons : pass1AssetsOf urn backend (m :: rest) =
              (getTaggedAssets backend m).map (fun a => (m, a)) ++
                pass1AssetsOf urn backend rest := by
            simp [pass1AssetsOf, List.filter_cons, hd]
          rw [hcons]
          exact List.mem_append_right _ hq

theorem nodupKeys_roomAssets_foldl_processLink (urn : String) (backend : Backend)
    (links : List String) (st : P1State) (h : NodupKeys st.roomAssetsMap) :
    NodupKeys (links.foldl (processLink urn backend) st).roomAssetsMap := by
  induction links generalizing st with
  | nil => exact h
  | cons m rest ih =>
      rw [List.foldl_cons]
      refine ih _ ?_
      by_cases hd : isDefaultModel urn m
      · simpa [processLink, hd] using h
      · simp only [processLink, hd, if_false]
        exact nodupKeys_roomAssets_foldl_processAsset _ _ _ h

theorem pass1_scanned (urn : String) (backend : Backend) :
    (pass1 urn backend).scanned =
      backend.links.filter (fun m => !isDefaultModel urn m) := by
  simpa [pass1] using scanned_foldl_processLink urn backend backend.links ⟨[], [], [], []⟩

theorem pass1_modelRooms (urn : String) (backend : Backend) :
    (pass1 urn backend).modelRooms =
      (pass1Assets urn backend).flatMap (fun p => assetRoomsOf p.1 p.2) := by
  simpa [pass1, pass1Assets] using
    modelRooms_foldl_processLink urn backend backend.links ⟨[], [], [], []⟩

theorem pass1_roomAssets (urn : String) (backend : Backend) (r : Option String) :
    getKV (pass1 urn backend).roomAssetsMap r = bucketCombine none (occAll urn backend r) := by
  simpa [pass1, occAll, pass1Assets, getKV] using
    roomAssets_foldl_processLink urn backend backend.links ⟨[], [], [], []⟩ r

theorem pass1_assets_mem (urn : String) (backend : Backend) {p : String × Element}
    (hp : p ∈ (pass1 urn backend).assets) :
    ∃ q ∈ pass1Assets urn backend, p = (Encoding.toFullKey q.2.key, q.2) := by
  rcases assets_foldl_processLink urn backend backend.links ⟨[], [], [], []⟩ hp with h | h
  · simp at h
  · simpa [pass1Assets] using h

theorem pass1_nodupKeys_roomAssets (urn : String) (backend : Backend) :
    NodupKeys (pass1 urn backend).roomAssetsMap := by
  exact nodupKeys_roomAssets_foldl_processLink urn backend backend.links ⟨[], [], [], []⟩
    (by simp [NodupKeys])

/-! ### Pass-2 fold invariants -/

theorem roomStep_foldl_rooms (fetched : List Element)
    (acc : List (String × Element) × List (String × String) × List String)
    (rk : String) (h : getKV (fetched.foldl roomStep acc).1 rk ≠ none) :
    getKV acc.1 rk ≠ none ∨ ∃ el ∈ fetched, Encoding.toFullKey el.key = rk := by
  induction fetched generalizing acc with
  | nil => exact Or.inl h
  | cons el rest ih =>
      rw [List.foldl_cons] at h
      rcases ih (roomStep acc el) h with h1 | h1
      · have hfst : (roomStep acc el).1 = setKV acc.1 (Encoding.toFullKey el.key) el := by
          cases hl : el.level <;> simp [roomStep, hl]
        rw [hfst, getKV_setKV] at h1
        by_cases hk : Encoding.toFullKey el.key = rk
        · exact Or.inr ⟨el, List.mem_cons_self _ _, hk⟩
        · rw [if_neg hk] at h1
          exact Or.inl h1
      · rcases h1 with ⟨el', hel', hk⟩
        exact Or.inr ⟨el', List.mem_cons_of_mem _ hel', hk⟩

theorem roomStep_foldl_roomLevel (fetched : List Element)
    (acc : List (String × Element) × List (String × String) × List String)
    (rk lv : String) (h : getKV (fetched.foldl roomStep acc).2.1 rk = some lv) :
    getKV acc.2.1 rk = some lv ∨
      ∃ el ∈ fetched, Encoding.toFullKey el.key = rk ∧
        ∃ lr, el.level = some lr ∧ lv = Encoding.toFullKey lr := by
  induction fetched generalizing acc with
  | nil => exact Or.inl h
  | cons el rest ih =>
      rw [List.foldl_cons] at h
      rcases ih (roomStep acc el) h with h1 | h1
      · cases hl : el.level with
        | none =>
            simp only [roomStep, hl] at h1
            exact Or.inl h1
        | some lr =>
            simp only [roomStep, hl] at h1
            rw [getKV_setKV] at h1
            by_cases hk : Encoding.toFullKey el.key = rk
            · rw [if_pos hk] at h1
              refine Or.inr ⟨el, List.mem_cons_self _ _, hk, lr, hl, ?_⟩
              exact (Option.some.injEq _ _ ▸ h1).symm
            · rw [if_neg hk] at h1
              exact Or.inl h1
      · rcases h1 with ⟨el', hel', hk, lr, hlr, hlv⟩
        exact Or.inr ⟨el', List.mem_cons_of_mem _ hel', hk, lr, hlr, hlv⟩

theorem roomStep_foldl_levelIds (fetched : List Element)
    (acc : List (String × Element) × List (String × String) × List String) :
    (fetched.foldl roomStep acc).2.2 =
      (fetched.filterMap (fun e => e.level)).foldl jsSetAdd acc.2.2 := by
  induction fetched generalizing acc with
  | nil => rfl
  | cons el rest ih =>
      rw [List.foldl_cons, ih]
      cases hl : el.level with
      | none => simp [roomStep, hl, List.filterMap_cons]
      | some lr => simp [roomStep, hl, List.filterMap_cons]

theorem processModel_roomFetches (backend : Backend)
    (modelRooms : List (String × Option String)) (st : P2State) (modelId : String) :
    (processModel backend modelRooms st modelId).roomFetches =
      st.roomFetches ++ [⟨modelId, roomIdsOf modelRooms modelId, [.standard, .refs]⟩] := by
  simp only [processModel]
  split <;> rfl

theorem processModel_levelFetches (backend : Backend)
    (modelRooms : List (String × Option String)) (st : P2State) (modelId : String) :
    (processModel backend modelRooms st modelId).levelFetches =
      st.levelFetches ++
        (if levelIdsOf backend modelRooms modelId = [] then []
         else [⟨modelId, (levelIdsOf backend modelRooms modelId).map (fun k => some k),
                 [.standard]⟩]) := by
  have hids : ((backend.elements modelId (jsSetDedup
        ((modelRooms.filter (fun i => i.1 == modelId)).map (fun i => i.2)))).foldl roomStep
      (st.rooms, st.roomLevelMap, [])).2.2 = levelIdsOf backend modelRooms modelId := by
    rw [roomStep_foldl_levelIds]
    rfl
  simp only [processModel]
  rw [hids]
  by_cases h : levelIdsOf backend modelRooms modelId = []
  · rw [if_pos (by simp [h]), if_pos h]
    simp
  · rw [if_neg (by simpa [List.isEmpty_iff] using h), if_neg h]

theorem processModel_rooms_prov (backend : Backend)
    (modelRooms : List (String × Option String)) (st : P2State) (modelId : String)
    (rk : String) (h : getKV (processModel backend modelRooms st modelId).rooms rk ≠ none) :
    getKV st.rooms rk ≠ none ∨
      ∃ el ∈ backend.elements modelId (roomIdsOf modelRooms modelId),
        Encoding.toFullKey el.key = rk := by
  have hrooms : (processModel backend modelRooms st modelId).rooms =
      ((backend.elements modelId (roomIdsOf modelRooms modelId)).foldl roomStep
        (st.rooms, st.roomLevelMap, [])).1 := by
    simp only [processModel]
    split <;> rfl
  rw [hrooms] at h
  exact roomStep_foldl_rooms _ _ _ h

theorem processModel_roomLevel_prov (backend : Backend)
    (modelRooms : List (String × Option String)) (st : P2State) (modelId : String)
    (rk lv : String)
    (h : getKV (processModel backend modelRooms st modelId).roomLevelMap rk = some lv) :
    getKV st.roomLevelMap rk = some lv ∨
      ∃ el ∈ backend.elements modelId (roomIdsOf modelRooms modelId),
        Encoding.toFullKey el.key = rk ∧
          ∃ lr, el.level = some lr ∧ lv = Encoding.toFullKey lr := by
  have hlm : (processModel backend modelRooms st modelId).roomLevelMap =
      ((backend.elements modelId (roomIdsOf modelRooms modelId)).foldl roomStep
        (st.rooms, st.roomLevelMap, [])).2.1 := by
    simp only [processModel]
    split <;> rfl
  rw [hlm] at h
  exact roomStep_foldl_roomLevel _ _ _ _ h

theorem foldl_processModel_roomFetches (backend : Backend)
    (modelRooms : List (String × Option String)) (models : List String) (st : P2State) :
    (models.foldl (processModel backend modelRooms) st).roomFetches =
      st.roomFetches ++
        models.map (fun mId => ⟨mId, roomIdsOf modelRooms mId, [.standard, .refs]⟩) := by
  induction models generalizing st with
  | nil => simp
  | cons mId rest ih =>
      rw [List.foldl_cons, ih, processModel_roomFetches]
      simp [List.append_assoc]

theorem foldl_processModel_levelFetches (backend : Backend)
    (modelRooms : List (String × Option String)) (models : List String) (st : P2State) :
    (models.foldl (processModel backend modelRooms) st).levelFetches =
      st.levelFetches ++
        models.flatMap (fun mId =>
          if levelIdsOf backend modelRooms mId = [] then []
          else [⟨mId, (levelIdsOf backend modelRooms mId).map (fun k => some k),
                  [.standard]⟩]) := by
  induction models generalizing st with
  | nil => simp
  | cons mId rest ih =>
      rw [List.foldl_cons, ih, processModel_levelFetches]
      simp [List.append_assoc]

theorem foldl_processModel_rooms_prov (backend : Backend)
    (modelRooms : List (String × Option String)) (models : List String) (st : P2State)
    (rk : String)
    (h : getKV (models.foldl (processModel backend modelRooms) st).rooms rk ≠ none) :
    getKV st.rooms rk ≠ none ∨
      ∃ mId ∈ models, ∃ el ∈ backend.elements mId (roomIdsOf modelRooms mId),
        Encoding.toFullKey el.key = rk := by
  induction models generalizing st with
  | nil => exact Or.inl h
  | cons mId rest ih =>
      rw [List.foldl_cons] at h
      rcases ih (processModel backend modelRooms st mId) h with h1 | h1
      · rcases processModel_rooms_prov backend modelRooms st mId rk h1 with h2 | h2
        · exact Or.inl h2
        · rcases h2 with ⟨el, hel, hk⟩
          exact Or.inr ⟨mId, List.mem_cons_self _ _, el, hel, hk⟩
      · rcases h1 with ⟨mId', hm', el, hel, hk⟩
        exact Or.inr ⟨mId', List.mem_cons_of_mem _ hm', el, hel, hk⟩

theorem foldl_processModel_roomLevel_prov (backend : Backend)
    (modelRooms : List (String × Option String)) (models : List String) (st : P2State)
    (rk lv : String)
    (h : getKV (models.foldl (processModel backend modelRooms) st).roomLevelMap rk
      = some lv) :
    getKV st.roomLevelMap rk = some lv ∨
      ∃ mId ∈ models, ∃ el ∈ backend.elements mId (roomIdsOf modelRooms mId),
        Encoding.toFullKey el.key = rk ∧
          ∃ lr, el.level = some lr ∧ lv = Encoding.toFullKey lr := by
  induction models generalizing st with
  | nil => exact Or.inl h
  | cons mId rest ih =>
      rw [List.foldl_cons] at h
      rcases ih (processModel backend modelRooms st mId) h with h1 | h1
      · rcases processModel_roomLevel_prov backend modelRooms st mId rk lv h1 with h2 | h2
        · exact Or.inl h2
        · rcases h2 with ⟨el, hel, hk⟩
          exact Or.inr ⟨mId, List.mem_cons_self _ _, el, hel, hk⟩
      · rcases h1 with ⟨mId', hm', el, hel, hk⟩
        exact Or.inr ⟨mId', List.mem_cons_of_mem _ hm', el, hel, hk⟩

theorem pass2_roomFetches (backend : Backend)
    (modelRooms : List (String × Option String)) :
    (pass2 backend modelRooms).roomFetches =
      (jsSetDedup (modelRooms.map (fun i => i.1))).map
        (fun mId => ⟨mId, roomIdsOf modelRooms mId, [.standard, .refs]⟩) := by
  simpa [pass2] using
    foldl_processModel_roomFetches backend modelRooms
      (jsSetDedup (modelRooms.map (fun i => i.1))) ⟨[], [], [], [], []⟩

theorem pass2_levelFetches (backend : Backend)
    (modelRooms : List (String × Option String)) :
    (pass2 backend modelRooms).levelFetches =
      (jsSetDedup (modelRooms.map (fun i => i.1))).flatMap
        (fun mId =>
          if levelIdsOf backend modelRooms mId = [] then []
          else [⟨mId, (levelIdsOf backend modelRooms mId).map (fun k => some k),
                  [.standard]⟩]) := by
  simpa [pass2] using
    foldl_processModel_levelFetches backend modelRooms
      (jsSetDedup (modelRooms.map (fun i => i.1))) ⟨[], [], [], [], []⟩

theorem pass2_rooms_prov (backend : Backend)
    (modelRooms : List (String × Option String)) (rk : String)
    (h : getKV (pass2 backend modelRooms).rooms rk ≠ none) :
    ∃ mId ∈ jsSetDedup (modelRooms.map (fun i => i.1)),
      ∃ el ∈ backend.elements mId (roomIdsOf modelRooms mId),
        Encoding.toFullKey el.key = rk := by
  unfold pass2 at h
  rcases foldl_processModel_rooms_prov backend modelRooms
      (jsSetDedup (modelRooms.map (fun i => i.1))) ⟨[], [], [], [], []⟩ rk h with h1 | h1
  · simp [getKV] at h1
  · exact h1

theorem pass2_roomLevel_prov (backend : Backend)
    (modelRooms : List (String × Option String)) (rk lv : String)
    (h : getKV (pass2 backend modelRooms).roomLevelMap rk = some lv) :
    ∃ mId ∈ jsSetDedup (modelRooms.map (fun i => i.1)),
      ∃ el ∈ backend.elements mId (roomIdsOf modelRooms mId),
        Encoding.toFullKey el.key = rk ∧
          ∃ lr, el.level = some lr ∧ lv = Encoding.toFullKey lr := by
  unfold pass2 at h
  rcases foldl_processModel_roomLevel_prov backend modelRooms
      (jsSetDedup (modelRooms.map (fun i => i.1))) ⟨[], [], [], [], []⟩ rk lv h with h1 | h1
  · simp [getKV] at h1
  · exact h1

/-! ### Projections of the full run -/

theorem resolve_roomAssetsMap (urn : String) (backend : Backend) :
    (resolve urn backend).data.roomAssetsMap = (pass1 urn backend).roomAssetsMap := rfl

theorem resolve_assets (urn : String) (backend : Backend) :
    (resolve urn backend).data.assets = (pass1 urn backend).assets := rfl

theorem resolve_modelRooms (urn : String) (backend : Backend) :
    (resolve urn backend).modelRooms = (pass1 urn backend).modelRooms := rfl

theorem resolve_scanned (urn : String) (backend : Backend) :
    (resolve urn backend).scanned = (pass1 urn backend).scanned := rfl

theorem resolve_rooms (urn : String) (backend : Backend) :
    (resolve urn backend).data.rooms = (pass2 backend (pass1 urn backend).modelRooms).rooms :=
  rfl

theorem resolve_roomLevelMap (urn : String) (backend : Backend) :
    (resolve urn backend).data.roomLevelMap =
      (pass2 backend (pass1 urn backend).modelRooms).roomLevelMap := rfl

theorem resolve_roomFetches (urn : String) (backend : Backend) :
    (resolve urn backend).roomFetches =
      (pass2 backend (pass1 urn backend).modelRooms).roomFetches := rfl

theorem resolve_levelFetches (urn : String) (backend : Backend) :
    (resolve urn backend).levelFetches =
      (pass2 backend (pass1 urn backend).modelRooms).levelFetches := rfl

/-! ### Remaining helper lemmas -/

theorem bucketCombine_none_ne_nil {occ : List String} (h : occ ≠ []) :
    bucketCombine none occ = some occ := by
  cases occ with
  | nil => exact absurd rfl h
  | cons a t => rfl

theorem xrefPairs_length (ms ks : List String) : (xrefPairs ms ks).length = ms.length := by
  induction ms generalizing ks with
  | nil => rfl
  | cons m mrest ih => cases ks <;> simp [xrefPairs, ih]

theorem xrefPairs_getElem? (ms ks : List String) (i : Nat) (hi : i < ms.length) :
    (xrefPairs ms ks)[i]? = some ("urn:adsk.dtm:" ++ ms[i], ks[i]?) := by
  induction ms generalizing ks i with
  | nil => simp at hi
  | cons m mrest ih =>
      cases ks with
      | nil =>
          cases i with
          | zero => simp [xrefPairs]
          | succ j =>
              have hj : j < mrest.length := by simpa using hi
              simp [xrefPairs, ih [] j hj]
      | cons k krest =>
          cases i with
          | zero => simp [xrefPairs]
          | succ j =>
              have hj : j < mrest.length := by simpa using hi
              simp [xrefPairs, ih krest j hj]

theorem mem_roomIdsOf (modelRooms : List (String × Option String)) (mId : String)
    (k : Option String) : k ∈ roomIdsOf modelRooms mId ↔ (mId, k) ∈ modelRooms := by
  simp only [roomIdsOf, mem_jsSetDedup, List.mem_map, List.mem_filter]
  constructor
  · rintro ⟨p, ⟨hp, hpm⟩, hk⟩
    obtain ⟨p1, p2⟩ := p
    simp only [beq_iff_eq] at hpm
    simp only at hk
    subst hpm; subst hk
    exact hp
  · intro hp
    exact ⟨(mId, k), ⟨hp, by simp⟩, rfl⟩

theorem mem_occAllOf {visited : List (String × Element)} {r : Option String} {x : String} :
    x ∈ occAllOf visited r ↔
      ∃ q ∈ visited, x = Encoding.toFullKey q.2.key ∧
        ∃ ref ∈ assetRoomsOf q.1 q.2, ref.2 = r := by
  simp only [occAllOf, List.mem_flatMap]
  constructor
  · rintro ⟨q, hq, hx⟩
    rcases mem_occOf.mp hx with ⟨hxk, ref, href, hrefr⟩
    exact ⟨q, hq, hxk, ref, href, hrefr⟩
  · rintro ⟨q, hq, hxk, ref, href, hrefr⟩
    exact ⟨q, hq, mem_occOf.mpr ⟨hxk, ref, href, hrefr⟩⟩

theorem occAll_ne_nil_iff (urn : String) (backend : Backend) (r : Option String) :
    occAll urn backend r ≠ [] ↔ ∃ p ∈ (pass1 urn backend).modelRooms, p.2 = r := by
  rw [pass1_modelRooms]
  constructor
  · intro h
    rcases List.exists_mem_of_ne_nil _ h with ⟨x, hx⟩
    rcases mem_occAllOf.mp hx with ⟨q, hq, _, ref, href, hrefr⟩
    exact ⟨ref, List.mem_flatMap.mpr ⟨q, hq, href⟩, hrefr⟩
  · rintro ⟨p, hp, hpr⟩
    rcases List.mem_flatMap.mp hp with ⟨q, hq, hpq⟩
    exact List.ne_nil_of_mem
      (mem_occAllOf.mpr ⟨q, hq, rfl, p, hpq, hpr⟩)

theorem nodup_keys_of_nodupKeys {α β : Type} {m : List (α × β)} (h : NodupKeys m) :
    (m.map Prod.fst).Nodup :=
  List.Pairwise.map Prod.fst (fun _ _ hab => hab) h

/-! ### Claims -/

/-- Claim C9: an element carrying neither a same-model room reference field
nor a cross-model room reference field normalizes to an empty reference
sequence without failing, and contributes no room-bucket entries and no
pending-room work-list entries. -/
theorem claim_C9 (modelId : String) (asset : Element) (st : P1State)
    (mp : List (Option String × List String))
    (h1 : asset.rooms = none) (h2 : asset.xrooms = none) :
    assetRoomsOf modelId asset = []
    ∧ addRoomBuckets mp (Encoding.toFullKey asset.key) (assetRoomsOf modelId asset) = mp
    ∧ (processAsset modelId st asset).modelRooms = st.modelRooms := by
  have ha : assetRoomsOf modelId asset = [] := by
    simp [assetRoomsOf, h1, h2, Encoding.fromXrefKeyArray, xrefPairs]
  refine ⟨ha, ?_, ?_⟩
  · rw [ha]; rfl
  · simp [processAsset, ha]

/-- Witness for C9 at a concrete reference-free element. -/
theorem claim_C9_witness :
    (⟨"a9", ["z:p"], none, none, none, none⟩ : Element).rooms = none
    ∧ (⟨"a9", ["z:p"], none, none, none, none⟩ : Element).xrooms = none
    ∧ assetRoomsOf "urn:adsk.dtm:A" ⟨"a9", ["z:p"], none, none, none, none⟩ = [] :=
  ⟨rfl, rfl,
    (claim_C9 "urn:adsk.dtm:A" ⟨"a9", ["z:p"], none, none, none, none⟩
      ⟨[], [], [], []⟩ [] rfl rfl).1⟩

/-- Claim C6 (amended): when the decoded xref pair arrays have unequal
length the element is not skipped and no error is reported: the code zips
by index over the model-id array, so exactly `ms.length` pairs are formed,
indices beyond `elementKeys` pairing with the JS-`undefined` room key, and
surplus element keys being dropped; the asset itself is still recorded and
processing continues. -/
theorem claim_C6_amended (modelId : String) (asset : Element) (st : P1State)
    (ms ks : List String)
    (h1 : asset.rooms = none)
    (hx : Encoding.fromXrefKeyArray asset.xrooms = (ms, ks))
    (_hlen : ms.length ≠ ks.length) :
    (assetRoomsOf modelId asset).length = ms.length
    ∧ (∀ i, (hi : i < ms.length) →
        (assetRoomsOf modelId asset)[i]? = some ("urn:adsk.dtm:" ++ ms[i], ks[i]?))
    ∧ (processAsset modelId st asset).assets =
        setKV st.assets (Encoding.toFullKey asset.key) asset := by
  have he : assetRoomsOf modelId asset = xrefPairs ms ks := by
    simp [assetRoomsOf, h1, hx]
  exact ⟨by rw [he, xrefPairs_length],
    fun i hi => by rw [he, xrefPairs_getElem? ms ks i hi], rfl⟩

/-- Witness for C6 at a malformed xref pair (two model ids, one key). -/
theorem claim_C6_amended_witness :
    Encoding.fromXrefKeyArray
        (⟨"a6", ["z:p"], none, some (["A", "B"], ["k1"]), none, none⟩ : Element).xrooms
      = (["A", "B"], ["k1"])
    ∧ (assetRoomsOf "urn:adsk.dtm:M"
        ⟨"a6", ["z:p"], none, some (["A", "B"], ["k1"]), none, none⟩).length = 2 :=
  ⟨rfl,
    (claim_C6_amended "urn:adsk.dtm:M"
      ⟨"a6", ["z:p"], none, some (["A", "B"], ["k1"]), none, none⟩
      ⟨[], [], [], []⟩ ["A", "B"] ["k1"] rfl rfl (by decide)).1⟩

/-- Counterexample to C6 as stated: with unequal xref arrays the element's
room reference is not skipped and pairs are formed from unmatched indices —
here index 1 of the model-id array pairs with the JS-`undefined` room key —
rather than the reference being dropped with a reported error. -/
theorem claim_C6_counterexample :
    Encoding.fromXrefKeyArray
        (⟨"a6", ["z:p"], none, some (["A", "B"], ["k1"]), none, none⟩ : Element).xrooms
      = (["A", "B"], ["k1"])
    ∧ (["A", "B"] : List String).length ≠ (["k1"] : List String).length
    ∧ assetRoomsOf "urn:adsk.dtm:M"
        ⟨"a6", ["z:p"], none, some (["A", "B"], ["k1"]), none, none⟩
      = [("urn:adsk.dtm:A", some "k1"), ("urn:adsk.dtm:B", none)] := by
  exact ⟨rfl, by decide, rfl⟩

/-- Claim C2: no link equal to the facility's default model is ever
scanned, and every entry of the `assets` map originates from a tagged
element of a scanned non-default link. -/
theorem claim_C2 (urn : String) (backend : Backend) :
    (∀ m ∈ (resolve urn backend).scanned, isDefaultModel urn m = false)
    ∧ ∀ p ∈ (resolve urn backend).data.assets,
        ∃ m ∈ backend.links, isDefaultModel urn m = false ∧
          ∃ el ∈ getTaggedAssets backend m, p.1 = Encoding.toFullKey el.key := by
  constructor
  · intro m hm
    rw [resolve_scanned, pass1_scanned] at hm
    rcases List.mem_filter.mp hm with ⟨_, hf⟩
    simpa using hf
  · intro p hp
    rw [resolve_assets] at hp
    rcases pass1_assets_mem urn backend hp with ⟨q, hq, hpq⟩
    rcases (by simpa [pass1Assets, pass1AssetsOf] using hq :
        ∃ m, (m ∈ backend.links ∧ isDefaultModel urn m = false) ∧
          ∃ a ∈ getTaggedAssets backend m, (m, a) = q) with ⟨m, ⟨hml, hmd⟩, a, ha, hqa⟩
    refine ⟨m, hml, hmd, a, ha, ?_⟩
    rw [hpq, ← hqa]

/-- Witness for C2: a facility whose links contain the default model itself
plus one real model; the default model is not scanned. -/
theorem claim_C2_witness :
    "urn:adsk.dtm:A" ∈ (resolve "urn:adsk.dtt:F"
        ⟨["urn:adsk.dtm:F", "urn:adsk.dtm:A"], fun _ => [], fun _ _ => []⟩).scanned
    ∧ isDefaultModel "urn:adsk.dtt:F" "urn:adsk.dtm:A" = false :=
  ⟨by decide,
    (claim_C2 "urn:adsk.dtt:F"
        ⟨["urn:adsk.dtm:F", "urn:adsk.dtm:A"], fun _ => [], fun _ _ => []⟩).1
      "urn:adsk.dtm:A" (by decide)⟩

/-- Claim C1: an asset of model `mA` carrying an xref room reference whose
`i`-th slot names raw model id `ms[i]` and room key `r` is normalized to a
pair whose model id is the referenced model `urn:adsk.dtm:` ++ `ms[i]`
(not `mA`), and Pass 2 issues its batched room fetch against that model,
with `r` among the requested keys. -/
theorem claim_C1 (urn : String) (backend : Backend) (mA : String) (asset : Element)
    (ms ks : List String) (i : Nat) (r : String)
    (hm : mA ∈ backend.links) (hnd : isDefaultModel urn mA = false)
    (ha : asset ∈ getTaggedAssets backend mA)
    (h1 : asset.rooms = none)
    (hx : Encoding.fromXrefKeyArray asset.xrooms = (ms, ks))
    (hi : i < ms.length) (hk : ks[i]? = some r) :
    ("urn:adsk.dtm:" ++ ms[i], some r) ∈ (resolve urn backend).modelRooms
    ∧ ∃ req ∈ (resolve urn backend).roomFetches,
        req.modelId = "urn:adsk.dtm:" ++ ms[i] ∧ some r ∈ req.keys := by
  have hpa : (mA, asset) ∈ pass1Assets urn backend := by
    refine List.mem_flatMap.mpr ⟨mA, List.mem_filter.mpr ⟨hm, by simp [hnd]⟩, ?_⟩
    exact List.mem_map_of_mem _ ha
  have he : assetRoomsOf mA asset = xrefPairs ms ks := by
    simp [assetRoomsOf, h1, hx]
  have href : ("urn:adsk.dtm:" ++ ms[i], some r) ∈ assetRoomsOf mA asset := by
    rw [he]
    have hg : (xrefPairs ms ks)[i]? = some ("urn:adsk.dtm:" ++ ms[i], some r) := by
      rw [xrefPairs_getElem? ms ks i hi, hk]
    rcases List.getElem?_eq_some.mp hg with ⟨hlt, hel⟩
    exact hel ▸ List.getElem_mem hlt
  have hmr : ("urn:adsk.dtm:" ++ ms[i], some r) ∈ (resolve urn backend).modelRooms := by
    rw [resolve_modelRooms, pass1_modelRooms]
    exact List.mem_flatMap.mpr ⟨(mA, asset), hpa, href⟩
  refine ⟨hmr, ?_⟩
  rw [resolve_roomFetches, pass2_roomFetches]
  have hB : "urn:adsk.dtm:" ++ ms[i] ∈
      jsSetDedup ((pass1 urn backend).modelRooms.map (fun p => p.1)) := by
    rw [mem_jsSetDedup]
    exact List.mem_map.mpr ⟨_, by rw [← resolve_modelRooms]; exact hmr, rfl⟩
  refine ⟨⟨"urn:adsk.dtm:" ++ ms[i],
      roomIdsOf (pass1 urn backend).modelRooms ("urn:adsk.dtm:" ++ ms[i]),
      [.standard, .refs]⟩, List.mem_map_of_mem _ hB, rfl, ?_⟩
  rw [mem_roomIdsOf, ← resolve_modelRooms]
  exact hmr

/-- Witness for C1: one asset in model `A` with an xref reference to room
`f:r9` of model `B`; the pair is normalized under `B`'s URN and the room
fetch targets `B`. -/
theorem claim_C1_witness :
    ("urn:adsk.dtm:B", some "f:r9") ∈ (resolve "urn:adsk.dtt:F"
        ⟨["urn:adsk.dtm:A"],
          fun m => if m = "urn:adsk.dtm:A" then
            [⟨"a1", ["z:p"], none, some (["B"], ["f:r9"]), none, none⟩] else [],
          fun _ _ => []⟩).modelRooms
    ∧ ∃ req ∈ (resolve "urn:adsk.dtt:F"
        ⟨["urn:adsk.dtm:A"],
          fun m => if m = "urn:adsk.dtm:A" then
            [⟨"a1", ["z:p"], none, some (["B"], ["f:r9"]), none, none⟩] else [],
          fun _ _ => []⟩).roomFetches,
        req.modelId = "urn:adsk.dtm:B" ∧ some "f:r9" ∈ req.keys :=
  claim_C1 "urn:adsk.dtt:F"
    ⟨["urn:adsk.dtm:A"],
      fun m => if m = "urn:adsk.dtm:A" then
        [⟨"a1", ["z:p"], none, some (["B"], ["f:r9"]), none, none⟩] else [],
      fun _ _ => []⟩
    "urn:adsk.dtm:A" ⟨"a1", ["z:p"], none, some (["B"], ["f:r9"]), none, none⟩
    ["B"] ["f:r9"] 0 "f:r9" (by decide) (by decide) (by decide) rfl rfl
    (by decide) rfl

/-- Claim C4: Pass 2 issues exactly one batched room fetch per distinct
model id of the pending-room work list; each fetch's key list is duplicate
free and contains exactly the room keys pending for that model, requesting
the standard and reference families. -/
theorem claim_C4 (urn : String) (backend : Backend) :
    (∀ mId, List.count mId
        ((resolve urn backend).roomFetches.map (fun req => req.modelId)) =
      if mId ∈ (resolve urn backend).modelRooms.map (fun p => p.1) then 1 else 0)
    ∧ ∀ req ∈ (resolve urn backend).roomFetches,
        req.keys.Nodup
        ∧ (∀ k, k ∈ req.keys ↔ (req.modelId, k) ∈ (resolve urn backend).modelRooms)
        ∧ req.families = [.standard, .refs] := by
  have hrf : (resolve urn backend).roomFetches =
      (jsSetDedup ((pass1 urn backend).modelRooms.map (fun i => i.1))).map
        (fun mId => ⟨mId, roomIdsOf (pass1 urn backend).modelRooms mId,
          [.standard, .refs]⟩) := by
    rw [resolve_roomFetches, pass2_roomFetches]
  constructor
  · intro mId
    rw [hrf, List.map_map]
    have hmm : ((fun req : FetchReq => req.modelId) ∘
        (fun mId => (⟨mId, roomIdsOf (pass1 urn backend).modelRooms mId,
          [.standard, .refs]⟩ : FetchReq))) = id := rfl
    rw [hmm, List.map_id, count_jsSetDedup, resolve_modelRooms]
  · intro req hreq
    rw [hrf] at hreq
    rcases List.mem_map.mp hreq with ⟨mId, _, hreqe⟩
    subst hreqe
    exact ⟨nodup_jsSetDedup _,
      fun k => by rw [mem_roomIdsOf, resolve_modelRooms],
      rfl⟩

/-- Witness for C4: a run with two assets referencing rooms of the same
model yields a single de-duplicated fetch against it. -/
theorem claim_C4_witness :
    List.count "urn:adsk.dtm:A"
        ((resolve "urn:adsk.dtt:F"
          ⟨["urn:adsk.dtm:A"],
            fun m => if m = "urn:adsk.dtm:A" then
              [⟨"a1", ["z:p"], some ["r1"], none, none, none⟩,
               ⟨"a2", ["z:q"], some ["r1", "r2"], none, none, none⟩] else [],
            fun _ _ => []⟩).roomFetches.map (fun req => req.modelId)) = 1 := by
  have h := (claim_C4 "urn:adsk.dtt:F"
    ⟨["urn:adsk.dtm:A"],
      fun m => if m = "urn:adsk.dtm:A" then
        [⟨"a1", ["z:p"], some ["r1"], none, none, none⟩,
         ⟨"a2", ["z:q"], some ["r1", "r2"], none, none, none⟩] else [],
      fun _ _ => []⟩).1 "urn:adsk.dtm:A"
  rw [h, if_pos (by decide)]

/-- Claim C5: a referenced room key whose batched fetch returns no element
is absent from `rooms` and `roomLevelMap`, yet its bucket remains in
`roomAssetsMap`; `getRoomsByLevel` never yields it for any level key, and
iterating its bucket with `getAssetsByRoom` succeeds rather than erroring. -/
theorem claim_C5 (urn : String) (backend : Backend) (s : String)
    (href : ∃ p ∈ (resolve urn backend).modelRooms, p.2 = some s)
    (hdangling : ∀ mId keys el, el ∈ backend.elements mId keys →
        Encoding.toFullKey el.key ≠ s) :
    getKV (resolve urn backend).data.roomAssetsMap (some s) ≠ none
    ∧ getKV (resolve urn backend).data.rooms s = none
    ∧ getKV (resolve urn backend).data.roomLevelMap s = none
    ∧ (∀ levelKey,
        s ∉ (getRoomsByLevel (resolve urn backend).data levelKey).map (fun p => p.1))
    ∧ ∃ l, getAssetsByRoom (resolve urn backend).data (some s) = Except.ok l := by
  have hbucket : getKV (resolve urn backend).data.roomAssetsMap (some s) ≠ none := by
    rw [resolve_roomAssetsMap, pass1_roomAssets]
    refine bucketCombine_ne_none ?_
    rw [occAll_ne_nil_iff]
    rw [resolve_modelRooms] at href
    exact href
  have hrooms : getKV (resolve urn backend).data.rooms s = none := by
    cases hE : getKV (resolve urn backend).data.rooms s with
    | none => rfl
    | some room =>
        exfalso
        rw [resolve_rooms] at hE
        rcases pass2_rooms_prov backend (pass1 urn backend).modelRooms s
            (by rw [hE]; exact Option.some_ne_none room) with ⟨mId, _, el, hel, hk⟩
        exact hdangling mId _ el hel hk
  have hlevel : getKV (resolve urn backend).data.roomLevelMap s = none := by
    cases hE : getKV (resolve urn backend).data.roomLevelMap s with
    | none => rfl
    | some lv =>
        exfalso
        rw [resolve_roomLevelMap] at hE
        rcases pass2_roomLevel_prov backend (pass1 urn backend).modelRooms s lv hE
          with ⟨mId, _, el, hel, hk, _⟩
        exact hdangling mId _ el hel hk
  refine ⟨hbucket, hrooms, hlevel, ?_, ?_⟩
  · intro levelKey hmem
    rcases List.mem_map.mp hmem with ⟨p, hp, hp1⟩
    have hpr : p ∈ (resolve urn backend).data.rooms :=
      List.mem_of_mem_filter hp
    have : getKV (resolve urn backend).data.rooms s ≠ none := by
      refine getKV_ne_none_of_mem (v := p.2) ?_
      rw [← hp1]
      exact hpr
    exact this hrooms
  · cases hB : getKV (resolve urn backend).data.roomAssetsMap (some s) with
    | none => exact absurd hB hbucket
    | some bucket =>
        refine ⟨bucket.map (fun k => (k, getKV (resolve urn backend).data.assets k)), ?_⟩
        simp [getAssetsByRoom, hB]

/-- Witness for C5: one asset references room `f:r1` of model `A`, and the
backend's element fetch returns nothing at all. -/
theorem claim_C5_witness :
    (∃ p ∈ (resolve "urn:adsk.dtt:F"
        ⟨["urn:adsk.dtm:A"],
          fun m => if m = "urn:adsk.dtm:A" then
            [⟨"a1", ["z:p"], some ["r1"], none, none, none⟩] else [],
          fun _ _ => []⟩).modelRooms, p.2 = some "f:r1")
    ∧ getKV (resolve "urn:adsk.dtt:F"
        ⟨["urn:adsk.dtm:A"],
          fun m => if m = "urn:adsk.dtm:A" then
            [⟨"a1", ["z:p"], some ["r1"], none, none, none⟩] else [],
          fun _ _ => []⟩).data.roomAssetsMap (some "f:r1") ≠ none
    ∧ getKV (resolve "urn:adsk.dtt:F"
        ⟨["urn:adsk.dtm:A"],
          fun m => if m = "urn:adsk.dtm:A" then
            [⟨"a1", ["z:p"], some ["r1"], none, none, none⟩] else [],
          fun _ _ => []⟩).data.rooms "f:r1" = none := by
  have h := claim_C5 "urn:adsk.dtt:F"
    ⟨["urn:adsk.dtm:A"],
      fun m => if m = "urn:adsk.dtm:A" then
        [⟨"a1", ["z:p"], some ["r1"], none, none, none⟩] else [],
      fun _ _ => []⟩ "f:r1" (by decide)
    (by intro mId keys el hel; simp at hel)
  exact ⟨by decide, h.1, h.2.1⟩

/-- Claim C8: iterating `getAssetsByRoom` over a room key never recorded in
Pass 1 fails hard (the JS `for ... of undefined` TypeError), while a
recorded key yields the bucket's asset keys paired with their elements in
Pass-1 discovery order; a recorded bucket of the resolver is never empty,
and a (hypothetical) recorded-but-empty bucket would yield nothing rather
than error. -/
theorem claim_C8 (urn : String) (backend : Backend) (rk : Option String) :
    (getKV (resolve urn backend).data.roomAssetsMap rk = none →
      getAssetsByRoom (resolve urn backend).data rk =
        Except.error "TypeError: assetKeys is not iterable")
    ∧ (∀ bucket, getKV (resolve urn backend).data.roomAssetsMap rk = some bucket →
        getAssetsByRoom (resolve urn backend).data rk =
          Except.ok (bucket.map (fun k => (k, getKV (resolve urn backend).data.assets k)))
        ∧ bucket = occAll urn backend rk ∧ bucket ≠ [])
    ∧ (∀ d : ResolvedData, ∀ rk', getKV d.roomAssetsMap rk' = some [] →
        getAssetsByRoom d rk' = Except.ok []) := by
  refine ⟨fun h => by simp [getAssetsByRoom, h], fun bucket h => ?_,
    fun d rk' h => by simp [getAssetsByRoom, h]⟩
  have hcomb : some bucket = bucketCombine none (occAll urn backend rk) := by
    rw [← pass1_roomAssets, ← resolve_roomAssetsMap, h]
  rcases bucketCombine_none_eq_some hcomb.symm with ⟨hb, hne⟩
  exact ⟨by simp [getAssetsByRoom, h], hb, hb ▸ hne⟩

/-- Witness for C8: an unrecorded key errors; the recorded key of a
one-asset run yields the single asset pair. -/
theorem claim_C8_witness :
    (getKV (resolve "urn:adsk.dtt:F"
        ⟨["urn:adsk.dtm:A"],
          fun m => if m = "urn:adsk.dtm:A" then
            [⟨"a8", ["z:p"], some ["r8"], none, none, none⟩] else [],
          fun _ _ => []⟩).data.roomAssetsMap (some "missing") = none)
    ∧ getAssetsByRoom (resolve "urn:adsk.dtt:F"
        ⟨["urn:adsk.dtm:A"],
          fun m => if m = "urn:adsk.dtm:A" then
            [⟨"a8", ["z:p"], some ["r8"], none, none, none⟩] else [],
          fun _ _ => []⟩).data (some "missing") =
      Except.error "TypeError: assetKeys is not iterable" :=
  ⟨by decide,
    (claim_C8 "urn:adsk.dtt:F"
      ⟨["urn:adsk.dtm:A"],
        fun m => if m = "urn:adsk.dtm:A" then
          [⟨"a8", ["z:p"], some ["r8"], none, none, none⟩] else [],
        fun _ _ => []⟩ (some "missing")).1 (by decide)⟩

/-- Claim C7 (amended): level handling consults only the same-model
`QC.Level` field (cross-model level references are never read), yields at
most one reference per room, and every level fetch is issued against the
room's own model over the de-duplicated collected level keys — which is
also the level's owning model precisely because only same-model references
are handled. -/
theorem claim_C7_amended :
    (∀ (backend : Backend) (modelRooms : List (String × Option String))
        (st : P2State) (modelId : String),
      (processModel backend modelRooms st modelId).levelFetches =
        st.levelFetches ++
          (if levelIdsOf backend modelRooms modelId = [] then []
           else [⟨modelId, (levelIdsOf backend modelRooms modelId).map (fun k => some k),
                   [.standard]⟩])
      ∧ ∀ rk lv,
          getKV (processModel backend modelRooms st modelId).roomLevelMap rk = some lv →
            getKV st.roomLevelMap rk = some lv ∨
              ∃ el ∈ backend.elements modelId (roomIdsOf modelRooms modelId),
                Encoding.toFullKey el.key = rk ∧
                  ∃ lr, el.level = some lr ∧ lv = Encoding.toFullKey lr)
    ∧ ∀ (urn : String) (backend : Backend),
        ∀ req ∈ (resolve urn backend).levelFetches,
          req.modelId ∈ jsSetDedup ((resolve urn backend).modelRooms.map (fun p => p.1))
          ∧ req.keys = (levelIdsOf backend (resolve urn backend).modelRooms
              req.modelId).map (fun k => some k)
          ∧ req.families = [.standard] := by
  refine ⟨fun backend modelRooms st modelId =>
    ⟨processModel_levelFetches backend modelRooms st modelId,
     fun rk lv h => processModel_roomLevel_prov backend modelRooms st modelId rk lv h⟩,
    ?_⟩
  intro urn backend req hreq
  rw [resolve_levelFetches, pass2_levelFetches] at hreq
  rcases List.mem_flatMap.mp hreq with ⟨mId, hm, hin⟩
  by_cases hids : levelIdsOf backend (pass1 urn backend).modelRooms mId = []
  · rw [if_pos hids] at hin
    simp at hin
  · rw [if_neg hids] at hin
    rcases List.mem_singleton.mp hin with rfl
    exact ⟨by rw [resolve_modelRooms]; exact hm, by rw [resolve_modelRooms], rfl⟩

/-- Witness for C7: a room of model `A` whose same-model level field names
`L1`; the level fetch is issued against `A` itself with key `L1`. -/
theorem claim_C7_amended_witness :
    (processModel
        ⟨["urn:adsk.dtm:A"], fun _ => [],
          fun m ks => if m = "urn:adsk.dtm:A" ∧ some "f:r1" ∈ ks then
            [⟨"f:r1", [], none, none, some "L1", none⟩] else []⟩
        [("urn:adsk.dtm:A", some "f:r1")] ⟨[], [], [], [], []⟩
        "urn:adsk.dtm:A").levelFetches =
      [⟨"urn:adsk.dtm:A", [some "L1"], [.standard]⟩] := by
  have h := (claim_C7_amended.1
    ⟨["urn:adsk.dtm:A"], fun _ => [],
      fun m ks => if m = "urn:adsk.dtm:A" ∧ some "f:r1" ∈ ks then
        [⟨"f:r1", [], none, none, some "L1", none⟩] else []⟩
    [("urn:adsk.dtm:A", some "f:r1")] ⟨[], [], [], [], []⟩
    "urn:adsk.dtm:A").1
  rw [h, if_neg (by decide)]
  rfl

/-- Counterexample to C7 as stated: a fetched room carrying only a
cross-model level reference (to level `L` of model `N`).  Were level
normalization to follow the same cross-model handling as room references,
a pending level grouped under `urn:adsk.dtm:N` would be recorded and
fetched from that model; instead the code records no room-level entry and
issues no level fetch at all. -/
theorem claim_C7_counterexample :
    (∃ p ∈ (resolve "urn:adsk.dtt:F"
        ⟨["urn:adsk.dtm:A"],
          fun m => if m = "urn:adsk.dtm:A" then
            [⟨"a7", ["z:p"], some ["r1"], none, none, none⟩] else [],
          fun m ks => if m = "urn:adsk.dtm:A" ∧ some "f:r1" ∈ ks then
            [⟨"f:r1", [], none, none, none, some ("N", "L")⟩] else []⟩).data.rooms,
      p.2.xlevel = some ("N", "L") ∧ p.2.level = none)
    ∧ (resolve "urn:adsk.dtt:F"
        ⟨["urn:adsk.dtm:A"],
          fun m => if m = "urn:adsk.dtm:A" then
            [⟨"a7", ["z:p"], some ["r1"], none, none, none⟩] else [],
          fun m ks => if m = "urn:adsk.dtm:A" ∧ some "f:r1" ∈ ks then
            [⟨"f:r1", [], none, none, none, some ("N", "L")⟩] else []⟩).data.roomLevelMap
      = []
    ∧ (resolve "urn:adsk.dtt:F"
        ⟨["urn:adsk.dtm:A"],
          fun m => if m = "urn:adsk.dtm:A" then
            [⟨"a7", ["z:p"], some ["r1"], none, none, none⟩] else [],
          fun m ks => if m = "urn:adsk.dtm:A" ∧ some "f:r1" ∈ ks then
            [⟨"f:r1", [], none, none, none, some ("N", "L")⟩] else []⟩).levelFetches
      = [] := by
  decide

/-- Counting buckets whose content contains a given asset key, when every
bucket's content is described by an occurrence function. -/
theorem length_filter_buckets {mp : List (Option String × List String)}
    (hnk : NodupKeys mp) (occ : Option String → List String)
    (hget : ∀ r, getKV mp r = bucketCombine none (occ r))
    (ak : String) (target : List (Option String))
    (htarget : target.Nodup)
    (hiff : ∀ r, ak ∈ occ r ↔ r ∈ target) :
    (mp.filter (fun b => decide (ak ∈ b.2))).length = target.length := by
  have hkeys : (mp.map Prod.fst).Nodup := nodup_keys_of_nodupKeys hnk
  have hsubl : ((mp.filter (fun b => decide (ak ∈ b.2))).map Prod.fst).Sublist
      (mp.map Prod.fst) := (List.filter_sublist mp).map Prod.fst
  have hsub : ((mp.filter (fun b => decide (ak ∈ b.2))).map Prod.fst).Nodup :=
    List.Nodup.sublist hsubl hkeys
  have hmemiff : ∀ x, x ∈ (mp.filter (fun b => decide (ak ∈ b.2))).map Prod.fst ↔
      x ∈ target := by
    intro x
    constructor
    · intro hx
      rcases List.mem_map.mp hx with ⟨b, hb, hbx⟩
      rcases List.mem_filter.mp hb with ⟨hbmp, hbP⟩
      have hgetb : getKV mp b.1 = some b.2 := getKV_eq_some_of_mem hnk hbmp
      have hcomb : bucketCombine none (occ b.1) = some b.2 := by rw [← hget]; exact hgetb
      rcases bucketCombine_none_eq_some hcomb with ⟨hb2, _⟩
      have hak : ak ∈ occ b.1 := by rw [← hb2]; exact of_decide_eq_true hbP
      rw [← hbx]
      exact (hiff b.1).mp hak
    · intro hx
      have hak : ak ∈ occ x := (hiff x).mpr hx
      have hocc : occ x ≠ [] := List.ne_nil_of_mem hak
      have hgetx : getKV mp x = some (occ x) := by
        rw [hget, bucketCombine_none_ne_nil hocc]
      have hmemx : (x, occ x) ∈ mp.filter (fun b => decide (ak ∈ b.2)) :=
        List.mem_filter.mpr ⟨getKV_some_mem hgetx, decide_eq_true hak⟩
      exact List.mem_map.mpr ⟨(x, occ x), hmemx, rfl⟩
  have hperm : ((mp.filter (fun b => decide (ak ∈ b.2))).map Prod.fst).Perm target :=
    (List.perm_ext_iff_of_nodup hsub htarget).mpr hmemiff
  calc (mp.filter (fun b => decide (ak ∈ b.2))).length
      = ((mp.filter (fun b => decide (ak ∈ b.2))).map Prod.fst).length :=
        (List.length_map _ _).symm
    _ = target.length := hperm.length_eq

/-- Claim C3 (amended): an asset whose full key is unique across the run is
appended to exactly one bucket per distinct room-key component among its
normalized references — the bucket key is the room key alone, so this
equals the number of distinct referenced rooms only when those rooms have
pairwise distinct keys; rooms of different models sharing a key share one
bucket. -/
theorem claim_C3_amended (urn : String) (backend : Backend) (mA : String)
    (asset : Element)
    (huniq : (pass1Assets urn backend).filter
        (fun q => Encoding.toFullKey q.2.key == Encoding.toFullKey asset.key)
      = [(mA, asset)]) :
    ((resolve urn backend).data.roomAssetsMap.filter
        (fun b => decide (Encoding.toFullKey asset.key ∈ b.2))).length =
      (jsSetDedup ((assetRoomsOf mA asset).map (fun p => p.2))).length := by
  have hmem : (mA, asset) ∈ pass1Assets urn backend := by
    have hs : (mA, asset) ∈ (pass1Assets urn backend).filter
        (fun q => Encoding.toFullKey q.2.key == Encoding.toFullKey asset.key) := by
      rw [huniq]; exact List.mem_singleton.mpr rfl
    exact List.mem_of_mem_filter hs
  have huniq' : ∀ q ∈ pass1Assets urn backend,
      Encoding.toFullKey q.2.key = Encoding.toFullKey asset.key → q = (mA, asset) := by
    intro q hq hkq
    have hs : q ∈ (pass1Assets urn backend).filter
        (fun q => Encoding.toFullKey q.2.key == Encoding.toFullKey asset.key) :=
      List.mem_filter.mpr ⟨hq, by simp [hkq]⟩
    rw [huniq] at hs
    exact List.mem_singleton.mp hs
  have hA : ∀ r, Encoding.toFullKey asset.key ∈ occAll urn backend r ↔
      r ∈ (assetRoomsOf mA asset).map (fun p => p.2) := by
    intro r
    constructor
    · intro h
      rcases mem_occAllOf.mp h with ⟨q, hq, hkq, ref, href, hrefr⟩
      have hq' : q = (mA, asset) := huniq' q hq hkq.symm
      subst hq'
      exact List.mem_map.mpr ⟨ref, href, hrefr⟩
    · intro h
      rcases List.mem_map.mp h with ⟨ref, href, hrefr⟩
      exact mem_occAllOf.mpr ⟨(mA, asset), hmem, rfl, ref, href, hrefr⟩
  refine length_filter_buckets ?_ (occAll urn backend) ?_ _ _ (nodup_jsSetDedup _) ?_
  · rw [resolve_roomAssetsMap]
    exact pass1_nodupKeys_roomAssets urn backend
  · intro r
    rw [resolve_roomAssetsMap]
    exact pass1_roomAssets urn backend r
  · intro r
    rw [hA r, mem_jsSetDedup]

/-- Witness for C3: an asset with two same-model room references lands in
exactly two buckets. -/
theorem claim_C3_amended_witness :
    ((pass1Assets "urn:adsk.dtt:F"
        ⟨["urn:adsk.dtm:A"],
          fun m => if m = "urn:adsk.dtm:A" then
            [⟨"w3", ["z:p"], some ["r1", "r2"], none, none, none⟩] else [],
          fun _ _ => []⟩).filter
        (fun q => Encoding.toFullKey q.2.key ==
          Encoding.toFullKey (⟨"w3", ["z:p"], some ["r1", "r2"], none, none, none⟩ :
            Element).key)
      = [("urn:adsk.dtm:A", ⟨"w3", ["z:p"], some ["r1", "r2"], none, none, none⟩)])
    ∧ ((resolve "urn:adsk.dtt:F"
        ⟨["urn:adsk.dtm:A"],
          fun m => if m = "urn:adsk.dtm:A" then
            [⟨"w3", ["z:p"], some ["r1", "r2"], none, none, none⟩] else [],
          fun _ _ => []⟩).data.roomAssetsMap.filter
        (fun b => decide (Encoding.toFullKey
          (⟨"w3", ["z:p"], some ["r1", "r2"], none, none, none⟩ : Element).key ∈ b.2))).length
      = 2 := by
  refine ⟨by decide, ?_⟩
  rw [claim_C3_amended "urn:adsk.dtt:F"
    ⟨["urn:adsk.dtm:A"],
      fun m => if m = "urn:adsk.dtm:A" then
        [⟨"w3", ["z:p"], some ["r1", "r2"], none, none, none⟩] else [],
      fun _ _ => []⟩ "urn:adsk.dtm:A"
    ⟨"w3", ["z:p"], some ["r1", "r2"], none, none, none⟩ (by decide)]
  decide

/-- Counterexample to C3 as stated: an asset referencing two distinct rooms
(distinct models `B1`, `B2`, same room key `r`) appears in one bucket, not
two — the bucket key does not include the model id. -/
theorem claim_C3_counterexample :
    assetRoomsOf "urn:adsk.dtm:A"
        ⟨"c3a", ["z:p"], none, some (["B1", "B2"], ["r", "r"]), none, none⟩
      = [("urn:adsk.dtm:B1", some "r"), ("urn:adsk.dtm:B2", some "r")]
    ∧ ("urn:adsk.dtm:B1", (some "r" : Option String)) ≠ ("urn:adsk.dtm:B2", some "r")
    ∧ (resolve "urn:adsk.dtt:F"
        ⟨["urn:adsk.dtm:A"],
          fun m => if m = "urn:adsk.dtm:A" then
            [⟨"c3a", ["z:p"], none, some (["B1", "B2"], ["r", "r"]), none, none⟩] else [],
          fun _ _ => []⟩).data.roomAssetsMap.length = 1
    ∧ ((resolve "urn:adsk.dtt:F"
        ⟨["urn:adsk.dtm:A"],
          fun m => if m = "urn:adsk.dtm:A" then
            [⟨"c3a", ["z:p"], none, some (["B1", "B2"], ["r", "r"]), none, none⟩] else [],
          fun _ _ => []⟩).data.roomAssetsMap.filter
        (fun b => decide ("f:c3a" ∈ b.2))).length = 1 := by
  decide

/-- Claim C10 (amended): the keys of `roomAssetsMap` are exactly the room-key
components of the normalized references, with no model qualification — a
bucket exists for `r` precisely when some reference carries room key `r`,
whatever its model id — and every `roomLevelMap` key is the full key of a
fetched room element, again unqualified by model. -/
theorem claim_C10_amended (urn : String) (backend : Backend) :
    (∀ r, getKV (resolve urn backend).data.roomAssetsMap r ≠ none ↔
        ∃ p ∈ (resolve urn backend).modelRooms, p.2 = r)
    ∧ ∀ rk, getKV (resolve urn backend).data.roomLevelMap rk ≠ none →
        ∃ mId ∈ jsSetDedup ((resolve urn backend).modelRooms.map (fun p => p.1)),
          ∃ el ∈ backend.elements mId (roomIdsOf (resolve urn backend).modelRooms mId),
            Encoding.toFullKey el.key = rk := by
  constructor
  · intro r
    rw [resolve_roomAssetsMap, pass1_roomAssets, resolve_modelRooms]
    constructor
    · intro h
      by_contra hne
      have hocc : occAll urn backend r = [] := by
        by_contra h2
        exact hne ((occAll_ne_nil_iff urn backend r).mp h2)
      rw [hocc] at h
      exact h (bucketCombine_nil none)
    · intro hex
      exact bucketCombine_ne_none ((occAll_ne_nil_iff urn backend r).mpr hex)
  · intro rk h
    rw [resolve_roomLevelMap] at h
    rcases Option.ne_none_iff_exists.mp h with ⟨lv, hlv⟩
    rcases pass2_roomLevel_prov backend (pass1 urn backend).modelRooms rk lv hlv.symm
      with ⟨mId, hm, el, hel, hk, _⟩
    exact ⟨mId, by rw [resolve_modelRooms]; exact hm,
      el, by rw [resolve_modelRooms]; exact hel, hk⟩

/-- Witness for C10: a referenced room key owns a bucket in a concrete run. -/
theorem claim_C10_amended_witness :
    getKV (resolve "urn:adsk.dtt:F"
        ⟨["urn:adsk.dtm:A"],
          fun m => if m = "urn:adsk.dtm:A" then
            [⟨"w10", ["z:p"], some ["rX"], none, none, none⟩] else [],
          fun _ _ => []⟩).data.roomAssetsMap (some "f:rX") ≠ none :=
  ((claim_C10_amended "urn:adsk.dtt:F"
      ⟨["urn:adsk.dtm:A"],
        fun m => if m = "urn:adsk.dtm:A" then
          [⟨"w10", ["z:p"], some ["rX"], none, none, none⟩] else [],
        fun _ _ => []⟩).1 (some "f:rX")).mpr (by decide)

/-- Counterexample to C10 as stated: two rooms in different models (`D1`,
`D2`) with the same local key `q` do not map to distinct buckets — one
bucket results, because the inserted key is the room key alone rather than
a model-qualified pair. -/
theorem claim_C10_counterexample :
    ("urn:adsk.dtm:D1", (some "q" : Option String)) ∈
        (resolve "urn:adsk.dtt:F"
          ⟨["urn:adsk.dtm:C"],
            fun m => if m = "urn:adsk.dtm:C" then
              [⟨"c10a", ["z:p"], none, some (["D1", "D2"], ["q", "q"]), none, none⟩]
            else [],
            fun _ _ => []⟩).modelRooms
    ∧ ("urn:adsk.dtm:D2", (some "q" : Option String)) ∈
        (resolve "urn:adsk.dtt:F"
          ⟨["urn:adsk.dtm:C"],
            fun m => if m = "urn:adsk.dtm:C" then
              [⟨"c10a", ["z:p"], none, some (["D1", "D2"], ["q", "q"]), none, none⟩]
            else [],
            fun _ _ => []⟩).modelRooms
    ∧ ("urn:adsk.dtm:D1" : String) ≠ "urn:adsk.dtm:D2"
    ∧ (resolve "urn:adsk.dtt:F"
        ⟨["urn:adsk.dtm:C"],
          fun m => if m = "urn:adsk.dtm:C" then
            [⟨"c10a", ["z:p"], none, some (["D1", "D2"], ["q", "q"]), none, none⟩]
          else [],
          fun _ _ => []⟩).data.roomAssetsMap.length = 1 := by
  decide
